import Mathlib

/-!
Verification of the Markov chain engine of the repository: the chain store
(sqlite table `markov_chain` with columns prefix1, prefix2, suffix and a
UNIQUE(prefix1, prefix2, suffix) constraint), the ingestion transaction in
`handleCrawlingCommand`, and the two generation functions
`generateMarkovSentence` (unseeded) and `generateResponseFromMessage` (seeded).

The store is embedded as a list of entries on which `INSERT OR IGNORE` acts as
an append-if-absent; queries are embedded as list filters.  Randomness
(`ORDER BY RANDOM() LIMIT 1`, `Math.floor(Math.random() * len)`) is embedded
as explicit choice oracles reduced modulo the candidate count, and the
tokenizer (kuromoji, whose `tokenize` may throw) as a function returning
`Except Unit (List String)` of surface forms.
-/

/-- One row of the `markov_chain` table.  The fields `pre1`, `pre2`, `suffix`
embed the columns prefix1, prefix2, suffix. -/
structure Entry where
  pre1 : String
  pre2 : String
  suffix : String
deriving DecidableEq

/-- The chain store: the rows of `markov_chain`, in insertion order.  The
UNIQUE constraint means a row is appended only if not already present. -/
abbrev Store := List Entry

/-- Sentinel returned by `generateMarkovSentence` on an empty store
("the database does not have enough data"). -/
def insufficientDataMsg : String := "データベースに十分なデータがありません。"

/-- Sentinel of the catch-all in `generateMarkovSentence`
("an error occurred while generating the sentence"). -/
def generationErrorMsg : String := "文章の生成中にエラーが発生しました。"

/-- Sentinel returned by `generateResponseFromMessage` when the kuromoji
tokenizer is not yet initialized. -/
def tokenizerNotReadyMsg : String := "トークナイザーが準備できていません。"

/-- Sentinel of the catch-all in `generateResponseFromMessage`
("an error occurred while generating the response"). -/
def responseErrorMsg : String := "応答の生成中にエラーが発生しました。"

/-- Embeds `INSERT OR IGNORE INTO markov_chain VALUES (?, ?, ?)`: append the row if
absent; the boolean is `result.changes > 0`. -/
def upsertTriple (store : Store) (e : Entry) : Store × Bool :=
  if e ∈ store then (store, false) else (store ++ [e], true)

/-- Run `upsertTriple` over a list of rows in order, counting how many were
newly inserted. -/
def upsertList (store : Store) : List Entry → Store × Nat
  | [] => (store, 0)
  | e :: rest =>
    let r := upsertTriple store e
    let r2 := upsertList r.1 rest
    (r2.1, (if r.2 then 1 else 0) + r2.2)

/-- The triples the ingestion loop attempts to insert for one tokenized
message: for each index i with i + 2 < words.length, the window
(words[i], words[i+1], words[i+2]) is attempted exactly when all three words
are non-empty (the JS truthiness test `words[i] && words[i+1] && words[i+2]`). -/
def attemptedTriples : List String → List Entry
  | w1 :: w2 :: w3 :: rest =>
    (if w1 ≠ "" ∧ w2 ≠ "" ∧ w3 ≠ "" then [Entry.mk w1 w2 w3] else []) ++
      attemptedTriples (w2 :: w3 :: rest)
  | _ => []

/-- The inner loop of the crawling transaction: slide a width-3 window over
the words, upserting each all-non-empty window and counting `changes > 0`. -/
def insertWindows (store : Store) : List String → Store × Nat
  | w1 :: w2 :: w3 :: rest =>
    if w1 ≠ "" ∧ w2 ≠ "" ∧ w3 ≠ "" then
      let r := upsertTriple store (Entry.mk w1 w2 w3)
      let r1 := insertWindows r.1 (w2 :: w3 :: rest)
      (r1.1, (if r.2 then 1 else 0) + r1.2)
    else
      insertWindows store (w2 :: w3 :: rest)
  | _ => (store, 0)

/-- One iteration of the crawling transaction's message loop.  A message is an
`Option String` (`msg.content`, possibly undefined); `none` and `""` are
skipped (`if (!msg.content) continue`), a tokenizer throw is caught and the
message skipped, and messages with fewer than 3 tokens are skipped.  Otherwise
the accumulated (store, processedMessages, insertedChains) is advanced. -/
def processMessage (tok : String → Except Unit (List String))
    (acc : Store × Nat × Nat) (content : Option String) : Store × Nat × Nat :=
  match content with
  | none => acc
  | some text =>
    if text = "" then acc
    else
      match tok text with
      | Except.error _ => acc
      | Except.ok words =>
        if words.length < 3 then acc
        else
          let r := insertWindows acc.1 words
          (r.1, acc.2.1 + 1, acc.2.2 + r.2)

/-- The whole crawling transaction over a batch of messages, starting from the
given store with both counters at 0.  Returns
(store, processedMessages, insertedChains). -/
def runCrawlTransaction (tok : String → Except Unit (List String))
    (msgs : List (Option String)) (store : Store) : Store × Nat × Nat :=
  msgs.foldl (processMessage tok) (store, 0, 0)

/-- Whether a message passes the guards of the message loop (it is counted in
`processedMessages`).  Mirrors the guards of `processMessage`. -/
def messagePasses (tok : String → Except Unit (List String)) :
    Option String → Bool
  | none => false
  | some text =>
    if text = "" then false
    else
      match tok text with
      | Except.error _ => false
      | Except.ok words => if words.length < 3 then false else true

/-- The triples one message contributes to the transaction (empty when any
guard skips it). -/
def msgAttempted (tok : String → Except Unit (List String)) :
    Option String → List Entry
  | none => []
  | some text =>
    if text = "" then []
    else
      match tok text with
      | Except.error _ => []
      | Except.ok words =>
        if words.length < 3 then [] else attemptedTriples words

/-- All triples a batch attempts to insert, in order. -/
def batchAttempted (tok : String → Except Unit (List String)) :
    List (Option String) → List Entry
  | [] => []
  | m :: rest => msgAttempted tok m ++ batchAttempted tok rest

/-- How many messages of a batch pass the guards. -/
def processedCount (tok : String → Except Unit (List String)) :
    List (Option String) → Nat
  | [] => 0
  | m :: rest => (if messagePasses tok m then 1 else 0) + processedCount tok rest

/-- Embeds `SELECT suffix FROM markov_chain WHERE prefix1 = ? AND prefix2 = ?`:
the suffixes recorded for the exact pair, in row order. -/
def continuationsOf (store : Store) (p1 p2 : String) : List String :=
  (store.filter (fun e => decide (e.pre1 = p1 ∧ e.pre2 = p2))).map Entry.suffix

/-- The bounded random walk shared by both generation functions.  `fuel` is
the number of loop iterations left, `step` numbers the iterations so the
choice oracle can differ per step; `choice step % suffixes.length` embeds
`Math.floor(Math.random() * suffixes.length)`.  Returns the words appended
after the two start words. -/
def markovWalkAux (store : Store) (choice : Nat → Nat) :
    Nat → Nat → String → String → List String
  | 0, _, _, _ => []
  | fuel + 1, step, p1, p2 =>
    let suffixes := continuationsOf store p1 p2
    if suffixes.isEmpty then []
    else
      let s := suffixes.getD (choice step % suffixes.length) ""
      s :: markovWalkAux store choice fuel (step + 1) p2 s

/-- The walk of `generateMarkovSentence` / `generateResponseFromMessage`:
at most `maxWords` iterations starting at pair (p1, p2). -/
def markovWalkFrom (store : Store) (choice : Nat → Nat) (maxWords : Nat)
    (p1 p2 : String) : List String :=
  markovWalkAux store choice maxWords 0 p1 p2

/-- The pair the walk holds after consuming the appended words: each appended
word w advances (p1, p2) to (p2, w). -/
def finalPair : String → String → List String → String × String
  | p1, p2, [] => (p1, p2)
  | _, p2, w :: rest => finalPair p2 w rest

/-- Walk validity as a boolean: every appended word w is a recorded suffix of
the current pair, which then advances to (p2, w). -/
def validWalk (store : Store) : String → String → List String → Bool
  | _, _, [] => true
  | p1, p2, w :: rest =>
    decide (Entry.mk p1 p2 w ∈ store) && validWalk store p2 w rest

/-- The word sequence built by `generateMarkovSentence`: `none` when the
store is empty (`SELECT ... ORDER BY RANDOM() LIMIT 1` returns no row),
otherwise the two words of the sampled start row followed by the walk.
`startChoice % store.length` embeds the uniformly random row choice. -/
def generateMarkovWords (store : Store) (startChoice : Nat)
    (choice : Nat → Nat) (maxWords : Nat) : Option (List String) :=
  if store.isEmpty then none
  else
    let row := store.getD (startChoice % store.length) (Entry.mk "" "" "")
    some (row.pre1 :: row.pre2 ::
      markovWalkFrom store choice maxWords row.pre1 row.pre2)

/-- Embeds `generateMarkovSentence(maxWords)`: the empty-store sentinel, or the word
sequence joined with no separator (`sentence.join('')`). -/
def generateMarkovSentence (store : Store) (startChoice : Nat)
    (choice : Nat → Nat) (maxWords : Nat) : String :=
  match generateMarkovWords store startChoice choice maxWords with
  | none => insufficientDataMsg
  | some ws => String.join ws

/-- Embeds `SELECT prefix1, prefix2 FROM markov_chain WHERE prefix1 = ? OR
prefix2 = ?` with the same word bound to both parameters: the pairs in which
either component equals the word (the fallback query of the seeded search). -/
def nodesContaining (store : Store) (w : String) : List (String × String) :=
  (store.filter (fun e => decide (e.pre1 = w ∨ e.pre2 = w))).map
    (fun e => (e.pre1, e.pre2))

/-- The primary seeded query: `WHERE prefix1 = ? OR prefix2 = ?` with
parameters [prefix1, prefix2], i.e. pairs whose first component equals the
second-to-last input token OR whose second component equals the last one. -/
def seedCandidates (store : Store) (w1 w2 : String) : List (String × String) :=
  (store.filter (fun e => decide (e.pre1 = w1 ∨ e.pre2 = w2))).map
    (fun e => (e.pre1, e.pre2))

/-- Modelled from the spec: the candidate set the spec and claim C5 describe,
`findNodesContaining(prefix1) OR findNodesContaining(prefix2)` — a pair is a
candidate when either component equals either of the two words.  Defined only
to compare with the source's `seedCandidates`. -/
def seedCandidatesClaimed (store : Store) (w1 w2 : String) :
    List (String × String) :=
  (store.filter
    (fun e => decide (e.pre1 = w1 ∨ e.pre2 = w1 ∨ e.pre1 = w2 ∨ e.pre2 = w2))).map
    (fun e => (e.pre1, e.pre2))

/-- Embeds `words.slice(-2)` followed by `lastTwoWords[0]` and
`lastTwoWords[1] || ""`: the last two tokens of the input (for inputs of
length at least 2; shorter inputs never reach this point). -/
def lastTwoWords (words : List String) : String × String :=
  let lastTwo := words.drop (words.length - 2)
  (lastTwo.getD 0 "", lastTwo.getD 1 "")

/-- The fallback loop of the seeded search: try `nodesContaining` for every
input token in order, stopping at the first non-empty result. -/
def firstNonEmptyCandidates (store : Store) : List String → List (String × String)
  | [] => []
  | w :: rest =>
    if (nodesContaining store w).length = 0 then
      firstNonEmptyCandidates store rest
    else nodesContaining store w

/-- The complete entry-node search of `generateResponseFromMessage`: the
primary query on the last two tokens, then the per-token fallback loop when
it was empty. -/
def seedStartCandidates (store : Store) (words : List String) :
    List (String × String) :=
  let c0 := seedCandidates store (lastTwoWords words).1 (lastTwoWords words).2
  if c0.length = 0 then firstNonEmptyCandidates store words else c0

/-- The word sequence of the seeded walk: `none` when seeded generation falls
back to unseeded before walking (fewer than 2 input tokens, or no candidate
node anywhere), otherwise the randomly chosen start pair followed by the walk. -/
def seededWords (store : Store) (words : List String) (seedChoice : Nat)
    (walkChoice : Nat → Nat) (maxWords : Nat) : Option (List String) :=
  if words.length < 2 then none
  else
    let cands := seedStartCandidates store words
    if cands.length = 0 then none
    else
      let start := cands.getD (seedChoice % cands.length) ("", "")
      some (start.1 :: start.2 ::
        markovWalkFrom store walkChoice maxWords start.1 start.2)

/-- Embeds `generateResponseFromMessage(inputMessage, maxWords)`.  The tokenizer is
`none` while kuromoji is still initializing; its `tokenize` may throw, which
the catch-all converts to `responseErrorMsg`.  A seeded fallback or a joined
result shorter than 10 characters yields the unseeded
`generateMarkovSentence` instead (with its own choice oracles). -/
def generateResponseFromMessage (store : Store)
    (tokenizer : Option (String → Except Unit (List String)))
    (input : String) (maxWords : Nat) (seedChoice : Nat)
    (walkChoice : Nat → Nat) (uStart : Nat) (uWalk : Nat → Nat) : String :=
  match tokenizer with
  | none => tokenizerNotReadyMsg
  | some tok =>
    match tok input with
    | Except.error _ => responseErrorMsg
    | Except.ok words =>
      match seededWords store words seedChoice walkChoice maxWords with
      | none => generateMarkovSentence store uStart uWalk maxWords
      | some ws =>
        let result := String.join ws
        if result.length < 10 then
          generateMarkovSentence store uStart uWalk maxWords
        else result

/-- Embeds `SELECT COUNT(*) FROM markov_chain` of `handleStatsCommand`. -/
def countEntries (store : Store) : Nat := store.length

/-- Embeds `SELECT COUNT(DISTINCT prefix1 || prefix2) FROM markov_chain` of
`handleStatsCommand`: the number of distinct unseparated concatenations
prefix1 ++ prefix2 over the rows. -/
def countDistinctNodes (store : Store) : Nat :=
  ((store.map (fun e => e.pre1 ++ e.pre2)).dedup).length

/-- Modelled from the spec: `countDistinctNodes` as claim C9 describes it —
the number of distinct (prefix1, prefix2) pairs, two rows counting as the
same node exactly when both components are equal.  Defined only to compare
with the source's concatenation-based `countDistinctNodes`. -/
def countDistinctNodesAsPairs (store : Store) : Nat :=
  ((store.map (fun e => (e.pre1, e.pre2))).dedup).length

lemma mem_store_of_mem_continuations {store : Store} {p1 p2 s : String}
    (h : s ∈ continuationsOf store p1 p2) : Entry.mk p1 p2 s ∈ store := by
  simp only [continuationsOf, List.mem_map, List.mem_filter,
    decide_eq_true_eq] at h
  obtain ⟨e, ⟨hmem, h1, h2⟩, hs⟩ := h
  cases e
  simp_all

lemma suffix_mem_continuations {store : Store} {e : Entry} (he : e ∈ store) :
    e.suffix ∈ continuationsOf store e.pre1 e.pre2 := by
  simp only [continuationsOf, List.mem_map, List.mem_filter, decide_eq_true_eq]
  exact ⟨e, ⟨he, rfl, rfl⟩, rfl⟩

lemma chosen_suffix_mem {store : Store} {p1 p2 : String} {k : Nat}
    (h : (continuationsOf store p1 p2).isEmpty = false) :
    (continuationsOf store p1 p2).getD (k % (continuationsOf store p1 p2).length) ""
      ∈ continuationsOf store p1 p2 := by
  have hlen : 0 < (continuationsOf store p1 p2).length := by
    cases hc : continuationsOf store p1 p2 with
    | nil => rw [hc] at h; simp [List.isEmpty] at h
    | cons a l => simp [hc]
  have hk : k % (continuationsOf store p1 p2).length
      < (continuationsOf store p1 p2).length := Nat.mod_lt _ hlen
  rw [List.getD_eq_getElem _ _ hk]
  exact List.getElem_mem _

lemma markovWalkAux_valid (store : Store) (choice : Nat → Nat) :
    ∀ fuel step p1 p2,
      validWalk store p1 p2 (markovWalkAux store choice fuel step p1 p2) = true := by
  intro fuel
  induction fuel with
  | zero => intro step p1 p2; rfl
  | succ n ih =>
    intro step p1 p2
    simp only [markovWalkAux]
    cases h : (continuationsOf store p1 p2).isEmpty with
    | true => simp [validWalk]
    | false =>
      simp only [Bool.false_eq_true, if_false, validWalk, Bool.and_eq_true,
        decide_eq_true_eq]
      exact ⟨mem_store_of_mem_continuations (chosen_suffix_mem h), ih _ _ _⟩

lemma markovWalkAux_length_le (store : Store) (choice : Nat → Nat) :
    ∀ fuel step p1 p2,
      (markovWalkAux store choice fuel step p1 p2).length ≤ fuel := by
  intro fuel
  induction fuel with
  | zero => intro step p1 p2; simp [markovWalkAux]
  | succ n ih =>
    intro step p1 p2
    simp only [markovWalkAux]
    cases h : (continuationsOf store p1 p2).isEmpty with
    | true => simp
    | false =>
      simp only [Bool.false_eq_true, if_false, List.length_cons]
      exact Nat.succ_le_succ (ih _ _ _)

lemma markovWalkAux_term (store : Store) (choice : Nat → Nat) :
    ∀ fuel step p1 p2,
      (markovWalkAux store choice fuel step p1 p2).length = fuel ∨
        continuationsOf store
          (finalPair p1 p2 (markovWalkAux store choice fuel step p1 p2)).1
          (finalPair p1 p2 (markovWalkAux store choice fuel step p1 p2)).2 = [] := by
  intro fuel
  induction fuel with
  | zero => intro step p1 p2; left; rfl
  | succ n ih =>
    intro step p1 p2
    simp only [markovWalkAux]
    cases h : (continuationsOf store p1 p2).isEmpty with
    | true =>
      right
      simpa [finalPair, List.isEmpty_iff] using h
    | false =>
      simp only [Bool.false_eq_true, if_false, List.length_cons, finalPair]
      rcases ih (step + 1) p2
          ((continuationsOf store p1 p2).getD
            (choice step % (continuationsOf store p1 p2).length) "") with hl | hr
      · left; rw [hl]
      · right; exact hr

lemma markovWalkAux_length_pos (store : Store) (choice : Nat → Nat)
    (p1 p2 : String) (n step : Nat)
    (h : continuationsOf store p1 p2 ≠ []) :
    1 ≤ (markovWalkAux store choice (n + 1) step p1 p2).length := by
  simp only [markovWalkAux]
  cases hc : (continuationsOf store p1 p2).isEmpty with
  | true => exact absurd (List.isEmpty_iff.mp hc) h
  | false => simp

lemma generateMarkovWords_eq_some {store : Store} {sc mw : Nat}
    {wc : Nat → Nat} {ws : List String}
    (h : generateMarkovWords store sc wc mw = some ws) :
    ∃ a b, ws = a :: b :: markovWalkFrom store wc mw a b := by
  by_cases he : store.isEmpty
  · simp [generateMarkovWords, he] at h
  · simp only [generateMarkovWords, he, Bool.false_eq_true, if_false,
      Option.some.injEq] at h
    exact ⟨_, _, h.symm⟩

lemma seededWords_eq_some {store : Store} {words : List String}
    {sc mw : Nat} {wc : Nat → Nat} {ws : List String}
    (h : seededWords store words sc wc mw = some ws) :
    ∃ a b, ws = a :: b :: markovWalkFrom store wc mw a b := by
  by_cases hlen : words.length < 2
  · simp [seededWords, hlen] at h
  · by_cases hc : (seedStartCandidates store words).length = 0
    · simp [seededWords, hlen, hc] at h
    · simp only [seededWords, hlen, if_false, hc, Option.some.injEq] at h
      exact ⟨_, _, h.symm⟩

/-- C3: Walk validity — in both unseeded and seeded generation, every word w
appended after the initial two-word start pair satisfies that the triple
(currentPrefix1, currentPrefix2, w) exists in the chain store, and the pair
then advances to (currentPrefix2, w). -/
theorem c3_walk_validity (store : Store) (sc mw sc2 mw2 : Nat)
    (wc wc2 : Nat → Nat) (words : List String)
    (p1 p2 q1 q2 : String) (rest1 rest2 : List String)
    (h1 : generateMarkovWords store sc wc mw = some (p1 :: p2 :: rest1))
    (h2 : seededWords store words sc2 wc2 mw2 = some (q1 :: q2 :: rest2)) :
    validWalk store p1 p2 rest1 = true ∧ validWalk store q1 q2 rest2 = true := by
  constructor
  · obtain ⟨a, b, hw⟩ := generateMarkovWords_eq_some h1
    rw [List.cons.injEq, List.cons.injEq] at hw
    obtain ⟨rfl, rfl, rfl⟩ := hw
    simpa [markovWalkFrom] using markovWalkAux_valid store wc mw 0 p1 p2
  · obtain ⟨a, b, hw⟩ := seededWords_eq_some h2
    rw [List.cons.injEq, List.cons.injEq] at hw
    obtain ⟨rfl, rfl, rfl⟩ := hw
    simpa [markovWalkFrom] using markovWalkAux_valid store wc2 mw2 0 q1 q2

theorem c3_walk_validity_witness :
    validWalk [Entry.mk "a" "b" "c"] "a" "b" ["c"] = true ∧
      validWalk [Entry.mk "a" "b" "c"] "a" "b" ["c"] = true :=
  c3_walk_validity [Entry.mk "a" "b" "c"] 0 1 0 1 (fun _ => 0) (fun _ => 0)
    ["a", "b"] "a" "b" "a" "b" ["c"] ["c"] rfl rfl

/-- C4: Bounded length — the walk appends at most maxWords words, terminating
either because maxWords steps were taken or because the current pair is a
dead end, and every generated word sequence (unseeded or seeded) has at most
maxWords + 2 words. -/
theorem c4_bounded_length (store : Store) (wc wc2 uw : Nat → Nat)
    (mw sc sc2 : Nat) (p1 p2 : String) (words : List String) :
    (markovWalkFrom store wc mw p1 p2).length ≤ mw ∧
      ((markovWalkFrom store wc mw p1 p2).length = mw ∨
        continuationsOf store
          (finalPair p1 p2 (markovWalkFrom store wc mw p1 p2)).1
          (finalPair p1 p2 (markovWalkFrom store wc mw p1 p2)).2 = []) ∧
      ((generateMarkovWords store sc uw mw).getD []).length ≤ mw + 2 ∧
      ((seededWords store words sc2 wc2 mw).getD []).length ≤ mw + 2 := by
  refine ⟨markovWalkAux_length_le store wc mw 0 p1 p2,
    markovWalkAux_term store wc mw 0 p1 p2, ?_, ?_⟩
  · cases h : generateMarkovWords store sc uw mw with
    | none => simp
    | some ws =>
      obtain ⟨a, b, rfl⟩ := generateMarkovWords_eq_some h
      simpa [markovWalkFrom] using markovWalkAux_length_le store uw mw 0 a b
  · cases h : seededWords store words sc2 wc2 mw with
    | none => simp
    | some ws =>
      obtain ⟨a, b, rfl⟩ := seededWords_eq_some h
      simpa [markovWalkFrom] using markovWalkAux_length_le store wc2 mw 0 a b

/-- C7: Empty-store behavior — unseeded generation on an empty store returns
the insufficient-data sentinel rather than failing; the generation functions
only read the store (`SELECT` statements), so the store is unchanged by
construction of the embedding. -/
theorem c7_empty_store (sc mw : Nat) (wc : Nat → Nat) :
    generateMarkovSentence [] sc wc mw = insufficientDataMsg ∧
      generateMarkovWords [] sc wc mw = none :=
  ⟨rfl, rfl⟩

/-- C8: Generation totality — both generation functions always return a
string: a sentinel (insufficient-data, tokenizer-not-ready, or the
error-generating message) or a joined word sequence; a tokenizer that throws
is caught and converted to the error sentinel. -/
theorem c8_generation_totality (store : Store)
    (tokenizer : Option (String → Except Unit (List String)))
    (input : String) (mw sc us : Nat) (wc uw : Nat → Nat) :
    (generateMarkovSentence store us uw mw = insufficientDataMsg ∨
      generateMarkovSentence store us uw mw =
        String.join ((generateMarkovWords store us uw mw).getD [])) ∧
    (generateResponseFromMessage store tokenizer input mw sc wc us uw =
        tokenizerNotReadyMsg ∨
      generateResponseFromMessage store tokenizer input mw sc wc us uw =
        responseErrorMsg ∨
      generateResponseFromMessage store tokenizer input mw sc wc us uw =
        insufficientDataMsg ∨
      ∃ ws : List String,
        generateResponseFromMessage store tokenizer input mw sc wc us uw =
          String.join ws) ∧
    generateResponseFromMessage store (some (fun _ => Except.error ())) input
      mw sc wc us uw = responseErrorMsg := by
  have hm : generateMarkovSentence store us uw mw = insufficientDataMsg ∨
      generateMarkovSentence store us uw mw =
        String.join ((generateMarkovWords store us uw mw).getD []) := by
    cases h : generateMarkovWords store us uw mw with
    | none => left; simp [generateMarkovSentence, h]
    | some ws => right; simp [generateMarkovSentence, h]
  refine ⟨hm, ?_, rfl⟩
  cases tokenizer with
  | none => exact Or.inl rfl
  | some tok =>
    cases htok : tok input with
    | error e => right; left; simp [generateResponseFromMessage, htok]
    | ok words =>
      have hfall :
          generateResponseFromMessage store (some tok) input mw sc wc us uw =
            generateMarkovSentence store us uw mw ∨
          ∃ ws : List String,
            generateResponseFromMessage store (some tok) input mw sc wc us uw =
              String.join ws := by
        cases hs : seededWords store words sc wc mw with
        | none => left; simp [generateResponseFromMessage, htok, hs]
        | some ws =>
          by_cases hlen : (String.join ws).length < 10
          · left; simp [generateResponseFromMessage, htok, hs, hlen]
          · right
            exact ⟨ws, by simp [generateResponseFromMessage, htok, hs, hlen]⟩
      rcases hfall with hf | hf
      · rcases hm with h1 | h2
        · right; right; left; rw [hf]; exact h1
        · right; right; right; exact ⟨_, by rw [hf]; exact h2⟩
      · obtain ⟨ws, hf⟩ := hf
        right; right; right; exact ⟨ws, hf⟩

/-- C10: For every non-empty chain store and maxWords at least 1, unseeded
generation produces a word sequence (not the empty-store sentinel) of at
least 3 words: the start pair is the (prefix1, prefix2) of an existing row,
so its first continuation lookup is non-empty and at least one suffix is
appended before a dead end can stop the walk. -/
theorem c10_unseeded_min_length (store : Store) (sc mw : Nat) (wc : Nat → Nat)
    (hne : store ≠ []) (hmw : 1 ≤ mw) :
    (generateMarkovWords store sc wc mw).isSome = true ∧
      3 ≤ ((generateMarkovWords store sc wc mw).getD []).length := by
  have hemp : store.isEmpty = false := by
    cases store with
    | nil => exact absurd rfl hne
    | cons a l => rfl
  have hlen : 0 < store.length := by
    cases store with
    | nil => exact absurd rfl hne
    | cons a l => simp
  have hmem : store.getD (sc % store.length) (Entry.mk "" "" "") ∈ store := by
    rw [List.getD_eq_getElem _ _ (Nat.mod_lt _ hlen)]
    exact List.getElem_mem _
  have hcont : continuationsOf store
      (store.getD (sc % store.length) (Entry.mk "" "" "")).pre1
      (store.getD (sc % store.length) (Entry.mk "" "" "")).pre2 ≠ [] := by
    intro hnil
    have hs := suffix_mem_continuations hmem
    rw [hnil] at hs
    exact List.not_mem_nil _ hs
  obtain ⟨k, rfl⟩ : ∃ k, mw = k + 1 := ⟨mw - 1, by omega⟩
  constructor
  · simp [generateMarkovWords, hemp]
  · simp only [generateMarkovWords, hemp, Bool.false_eq_true, if_false,
      Option.getD_some, List.length_cons, markovWalkFrom]
    have h1 := markovWalkAux_length_pos store wc
      (store.getD (sc % store.length) (Entry.mk "" "" "")).pre1
      (store.getD (sc % store.length) (Entry.mk "" "" "")).pre2
      k 0 hcont
    omega

theorem c10_unseeded_min_length_witness :
    (([Entry.mk "a" "b" "c"] : Store) ≠ [] ∧ 1 ≤ 1) ∧
      ((generateMarkovWords [Entry.mk "a" "b" "c"] 0 (fun _ => 0) 1).isSome = true ∧
        3 ≤ ((generateMarkovWords [Entry.mk "a" "b" "c"] 0 (fun _ => 0) 1).getD []).length) :=
  ⟨⟨by decide, by decide⟩,
    c10_unseeded_min_length [Entry.mk "a" "b" "c"] 0 1 (fun _ => 0)
      (by decide) (by decide)⟩

lemma insertWindows_eq_upsertList (words : List String) :
    ∀ store : Store,
      insertWindows store words = upsertList store (attemptedTriples words) := by
  induction words with
  | nil => intro store; rfl
  | cons w tail ih =>
    intro store
    cases tail with
    | nil => rfl
    | cons t1 tail2 =>
      cases tail2 with
      | nil => rfl
      | cons t2 rest =>
        by_cases hcond : w ≠ "" ∧ t1 ≠ "" ∧ t2 ≠ ""
        · simp only [insertWindows, attemptedTriples, if_pos hcond,
            List.singleton_append, upsertList]
          rw [ih]
        · simp only [insertWindows, attemptedTriples, if_neg hcond,
            List.nil_append]
          exact ih store

lemma attemptedTriples_of_all_ne (words : List String)
    (h : ∀ w ∈ words, w ≠ "") :
    attemptedTriples words =
      (List.range (words.length - 2)).map
        (fun i => Entry.mk (words.getD i "") (words.getD (i + 1) "")
          (words.getD (i + 2) "")) := by
  induction words with
  | nil => rfl
  | cons w tail ih =>
    cases tail with
    | nil => rfl
    | cons t1 tail2 =>
      cases tail2 with
      | nil => rfl
      | cons t2 rest =>
        have hw : w ≠ "" := h w (by simp)
        have ht1 : t1 ≠ "" := h t1 (by simp)
        have ht2 : t2 ≠ "" := h t2 (by simp)
        have htail : ∀ x ∈ t1 :: t2 :: rest, x ≠ "" := fun x hx =>
          h x (List.mem_cons_of_mem _ hx)
        rw [attemptedTriples, if_pos ⟨hw, ht1, ht2⟩, ih htail]
        have hlen : (w :: t1 :: t2 :: rest).length - 2 =
            ((t1 :: t2 :: rest).length - 2) + 1 := by
          simp only [List.length_cons]
          omega
        rw [hlen, List.range_succ_eq_map, List.map_cons, List.map_map,
          List.singleton_append]
        congr 1

lemma upsertList_append (l1 l2 : List Entry) :
    ∀ store : Store,
      upsertList store (l1 ++ l2) =
        ((upsertList (upsertList store l1).1 l2).1,
          (upsertList store l1).2 + (upsertList (upsertList store l1).1 l2).2) := by
  induction l1 with
  | nil =>
    intro store
    simp [upsertList]
  | cons e l1 ih =>
    intro store
    show upsertList store (e :: (l1 ++ l2)) = _
    simp only [upsertList, ih, Prod.mk.injEq]
    exact ⟨trivial, by omega⟩

lemma mem_upsertTriple_self (store : Store) (e : Entry) :
    e ∈ (upsertTriple store e).1 := by
  by_cases h : e ∈ store
  · simp only [upsertTriple, if_pos h]
    exact h
  · simp [upsertTriple, h]

lemma mem_upsertTriple_mono {store : Store} {a : Entry} (e : Entry)
    (h : a ∈ store) : a ∈ (upsertTriple store e).1 := by
  by_cases he : e ∈ store
  · simpa [upsertTriple, he] using h
  · simp [upsertTriple, he, List.mem_append]
    exact Or.inl h

lemma mem_upsertList_mono {a : Entry} (l : List Entry) :
    ∀ store : Store, a ∈ store → a ∈ (upsertList store l).1 := by
  induction l with
  | nil => intro store h; exact h
  | cons e rest ih =>
    intro store h
    simp only [upsertList]
    exact ih _ (mem_upsertTriple_mono e h)

lemma mem_upsertList_self {a : Entry} (l : List Entry) :
    ∀ store : Store, a ∈ l → a ∈ (upsertList store l).1 := by
  induction l with
  | nil => intro store h; exact absurd h (List.not_mem_nil a)
  | cons e rest ih =>
    intro store h
    rcases List.mem_cons.mp h with rfl | hmem
    · simp only [upsertList]
      exact mem_upsertList_mono rest _ (mem_upsertTriple_self store a)
    · simp only [upsertList]
      exact ih _ hmem

lemma upsertList_noop (l : List Entry) :
    ∀ store : Store, (∀ a ∈ l, a ∈ store) → upsertList store l = (store, 0) := by
  induction l with
  | nil => intro store _; rfl
  | cons e rest ih =>
    intro store h
    have he : e ∈ store := h e (by simp)
    have hup : upsertTriple store e = (store, false) := by
      simp [upsertTriple, he]
    simp [upsertList, hup, ih store fun a ha => h a (List.mem_cons_of_mem _ ha)]

lemma processMessage_char (tok : String → Except Unit (List String))
    (m : Option String) (store : Store) (p c : Nat) :
    processMessage tok (store, p, c) m =
      ((upsertList store (msgAttempted tok m)).1,
        p + (if messagePasses tok m then 1 else 0),
        c + (upsertList store (msgAttempted tok m)).2) := by
  cases m with
  | none => simp [processMessage, msgAttempted, messagePasses, upsertList]
  | some text =>
    by_cases htext : text = ""
    · simp [processMessage, msgAttempted, messagePasses, htext, upsertList]
    · cases htok : tok text with
      | error e =>
        simp [processMessage, msgAttempted, messagePasses, htext, htok, upsertList]
      | ok words =>
        by_cases hlen : words.length < 3
        · simp [processMessage, msgAttempted, messagePasses, htext, htok, hlen,
            upsertList]
        · simp [processMessage, msgAttempted, messagePasses, htext, htok, hlen,
            insertWindows_eq_upsertList]

lemma runCrawl_char (tok : String → Except Unit (List String))
    (msgs : List (Option String)) :
    ∀ (store : Store) (p c : Nat),
      msgs.foldl (processMessage tok) (store, p, c) =
        ((upsertList store (batchAttempted tok msgs)).1,
          p + processedCount tok msgs,
          c + (upsertList store (batchAttempted tok msgs)).2) := by
  induction msgs with
  | nil =>
    intro store p c
    simp [batchAttempted, processedCount, upsertList]
  | cons m rest ih =>
    intro store p c
    simp only [List.foldl_cons, processMessage_char, ih, batchAttempted,
      processedCount, upsertList_append, Prod.mk.injEq]
    refine ⟨trivial, by omega, by omega⟩

/-- C1: Trigram completeness — for a record whose tokenization yields n ≥ 3
words, all non-empty, the ingestion loop upserts into the store exactly the
n - 2 triples (words[i], words[i+1], words[i+2]) for i from 0 to n - 3, in
order; records that are undefined, empty, or tokenize to fewer than 3 words
contribute no upserts. -/
theorem c1_trigram_completeness (store : Store) (words : List String)
    (tok : String → Except Unit (List String)) (acc : Store × Nat × Nat)
    (text : String)
    (h3 : 3 ≤ words.length) (hne : ∀ w ∈ words, w ≠ "") :
    insertWindows store words = upsertList store (attemptedTriples words) ∧
      attemptedTriples words =
        (List.range (words.length - 2)).map
          (fun i => Entry.mk (words.getD i "") (words.getD (i + 1) "")
            (words.getD (i + 2) "")) ∧
      (attemptedTriples words).length = words.length - 2 ∧
      processMessage tok acc none = acc ∧
      processMessage tok acc (some "") = acc ∧
      processMessage (fun _ => Except.ok (words.take 2)) acc (some text) = acc := by
  refine ⟨insertWindows_eq_upsertList words store,
    attemptedTriples_of_all_ne words hne, ?_, rfl, ?_, ?_⟩
  · rw [attemptedTriples_of_all_ne words hne]
    simp
  · simp [processMessage]
  · by_cases htext : text = ""
    · simp [processMessage, htext]
    · have hlen : (words.take 2).length < 3 := by
        rw [List.length_take]
        omega
      simp [processMessage, htext, hlen]

theorem c1_trigram_completeness_witness :
    3 ≤ (["a", "b", "c", "d"] : List String).length ∧
      (attemptedTriples ["a", "b", "c", "d"]).length =
        (["a", "b", "c", "d"] : List String).length - 2 :=
  ⟨by decide,
    (c1_trigram_completeness [] ["a", "b", "c", "d"]
      (fun _ => Except.ok []) ([], 0, 0) "t" (by decide) (by decide)).2.2.1⟩

/-- C2: Idempotent ingestion — upserting a triple already present leaves the
store unchanged and reports no insertion, and re-running the same batch over
the store produced by the first run leaves that store unchanged and reports
insertedChains = 0. -/
theorem c2_idempotent_ingestion (store : Store) (e : Entry)
    (tok : String → Except Unit (List String)) (msgs : List (Option String))
    (he : e ∈ store) :
    upsertTriple store e = (store, false) ∧
      (runCrawlTransaction tok msgs
          (runCrawlTransaction tok msgs store).1).1 =
        (runCrawlTransaction tok msgs store).1 ∧
      (runCrawlTransaction tok msgs
          (runCrawlTransaction tok msgs store).1).2.2 = 0 := by
  have hchar := runCrawl_char tok msgs
  have h1 : (runCrawlTransaction tok msgs store).1 =
      (upsertList store (batchAttempted tok msgs)).1 := by
    rw [runCrawlTransaction, hchar store 0 0]
  have hsub : ∀ a ∈ batchAttempted tok msgs,
      a ∈ (runCrawlTransaction tok msgs store).1 := by
    intro a ha
    rw [h1]
    exact mem_upsertList_self _ _ ha
  have hnoop := upsertList_noop (batchAttempted tok msgs) _ hsub
  have h2 : runCrawlTransaction tok msgs ((runCrawlTransaction tok msgs store).1) =
      ((upsertList ((runCrawlTransaction tok msgs store).1)
          (batchAttempted tok msgs)).1,
        0 + processedCount tok msgs,
        0 + (upsertList ((runCrawlTransaction tok msgs store).1)
          (batchAttempted tok msgs)).2) := by
    rw [runCrawlTransaction]
    exact hchar _ 0 0
  rw [hnoop] at h2
  refine ⟨by simp [upsertTriple, he], ?_, ?_⟩
  · rw [h2]
  · rw [h2]
    simp

theorem c2_idempotent_ingestion_witness :
    Entry.mk "a" "b" "c" ∈ ([Entry.mk "a" "b" "c"] : Store) ∧
      upsertTriple [Entry.mk "a" "b" "c"] (Entry.mk "a" "b" "c") =
        ([Entry.mk "a" "b" "c"], false) :=
  ⟨by decide,
    (c2_idempotent_ingestion [Entry.mk "a" "b" "c"] (Entry.mk "a" "b" "c")
      (fun _ => Except.ok ["a", "b", "c"]) [some "t"] (by decide)).1⟩

lemma firstNonEmptyCandidates_eq_nil {store : Store} :
    ∀ words : List String, (∀ w ∈ words, nodesContaining store w = []) →
      firstNonEmptyCandidates store words = [] := by
  intro words
  induction words with
  | nil => intro h; rfl
  | cons w rest ih =>
    intro h
    have hw : nodesContaining store w = [] := h w (by simp)
    simp [firstNonEmptyCandidates, hw,
      ih fun x hx => h x (List.mem_cons_of_mem _ hx)]

/-- C5 (counterexample): with the store holding only the row ("b", "a", "x")
and the input's last two tokens prefix1 = "a", prefix2 = "b", the candidate
set the claim describes (either component equal to either word) contains the
pair ("b", "a"), but the source's single query `WHERE prefix1 = ? OR
prefix2 = ?` bound to [prefix1, prefix2] returns nothing — the claim's
4-way union is not what the code computes. -/
theorem c5_seed_search_counterexample :
    seedCandidates [Entry.mk "b" "a" "x"] "a" "b" = [] ∧
      seedCandidatesClaimed [Entry.mk "b" "a" "x"] "a" "b" = [("b", "a")] ∧
      seedCandidates [Entry.mk "b" "a" "x"] "a" "b" ≠
        seedCandidatesClaimed [Entry.mk "b" "a" "x"] "a" "b" := by
  decide

/-- C5 (amended): a stored pair is a primary seeded candidate exactly when
its first component equals prefix1 (the second-to-last input token) OR its
second component equals prefix2 (the last input token); the per-word
fallback query genuinely matches pairs in which either component equals the
word. -/
theorem c5_seed_search_amended (store : Store) (w1 w2 w : String) (e : Entry)
    (he : e ∈ store) :
    ((e.pre1, e.pre2) ∈ seedCandidates store w1 w2 ↔
      (e.pre1 = w1 ∨ e.pre2 = w2)) ∧
    ((e.pre1, e.pre2) ∈ nodesContaining store w ↔
      (e.pre1 = w ∨ e.pre2 = w)) := by
  constructor
  · constructor
    · intro h
      simp only [seedCandidates, List.mem_map, List.mem_filter,
        decide_eq_true_eq, Prod.mk.injEq] at h
      obtain ⟨e2, ⟨hmem, hcond⟩, h1, h2⟩ := h
      rcases hcond with hc | hc
      · left; rw [← h1]; exact hc
      · right; rw [← h2]; exact hc
    · intro h
      simp only [seedCandidates, List.mem_map, List.mem_filter,
        decide_eq_true_eq, Prod.mk.injEq]
      exact ⟨e, ⟨he, h⟩, rfl, rfl⟩
  · constructor
    · intro h
      simp only [nodesContaining, List.mem_map, List.mem_filter,
        decide_eq_true_eq, Prod.mk.injEq] at h
      obtain ⟨e2, ⟨hmem, hcond⟩, h1, h2⟩ := h
      rcases hcond with hc | hc
      · left; rw [← h1]; exact hc
      · right; rw [← h2]; exact hc
    · intro h
      simp only [nodesContaining, List.mem_map, List.mem_filter,
        decide_eq_true_eq, Prod.mk.injEq]
      exact ⟨e, ⟨he, h⟩, rfl, rfl⟩

theorem c5_seed_search_amended_witness :
    Entry.mk "a" "b" "c" ∈ ([Entry.mk "a" "b" "c"] : Store) ∧
      ((("a", "b") ∈ seedCandidates [Entry.mk "a" "b" "c"] "a" "x") ↔
        ("a" = "a" ∨ "b" = "x")) ∧
      ((("a", "b") ∈ nodesContaining [Entry.mk "a" "b" "c"] "b") ↔
        ("a" = "b" ∨ "b" = "b")) :=
  ⟨by decide,
    c5_seed_search_amended [Entry.mk "a" "b" "c"] "a" "x" "b"
      (Entry.mk "a" "b" "c") (by decide)⟩

/-- C6: Seeded-to-unseeded fallback chain — seeded generation returns the
unseeded result whenever (a) the input tokenizes to fewer than 2 words, or
(b) neither the primary query on the last two tokens nor any per-token
fallback query finds a candidate node, or (c) the seeded walk's joined output
has fewer than 10 characters. -/
theorem c6_seeded_fallbacks (store : Store)
    (tok : String → Except Unit (List String)) (input : String)
    (words : List String) (mw sc us : Nat) (wc uw : Nat → Nat)
    (htok : tok input = Except.ok words)
    (hcond : words.length < 2 ∨
      (seedCandidates store (lastTwoWords words).1 (lastTwoWords words).2 = [] ∧
        ∀ w ∈ words, nodesContaining store w = []) ∨
      (String.join ((seededWords store words sc wc mw).getD [])).length < 10) :
    generateResponseFromMessage store (some tok) input mw sc wc us uw =
      generateMarkovSentence store us uw mw := by
  rcases hcond with hlen | ⟨hc1, hc2⟩ | hshort
  · have hs : seededWords store words sc wc mw = none := by
      simp [seededWords, hlen]
    simp [generateResponseFromMessage, htok, hs]
  · have hcands : seedStartCandidates store words = [] := by
      simp [seedStartCandidates, hc1, firstNonEmptyCandidates_eq_nil words hc2]
    have hs : seededWords store words sc wc mw = none := by
      by_cases hlen : words.length < 2
      · simp [seededWords, hlen]
      · simp [seededWords, hlen, hcands]
    simp [generateResponseFromMessage, htok, hs]
  · cases hs : seededWords store words sc wc mw with
    | none => simp [generateResponseFromMessage, htok, hs]
    | some ws =>
      rw [hs] at hshort
      simp only [Option.getD_some] at hshort
      simp [generateResponseFromMessage, htok, hs, hshort]

theorem c6_seeded_fallbacks_witness :
    generateResponseFromMessage [] (some (fun _ => Except.ok ["a"])) "x" 5 0
        (fun _ => 0) 0 (fun _ => 0) =
      generateMarkovSentence [] 0 (fun _ => 0) 5 :=
  c6_seeded_fallbacks [] (fun _ => Except.ok ["a"]) "x" ["a"] 5 0 0
    (fun _ => 0) (fun _ => 0) rfl (Or.inl (by decide))

/-- C9: the source's `handleStatsCommand` computes
`SELECT COUNT(DISTINCT prefix1 || prefix2)`.  On a store holding the rows
("ab", "c", "x") and ("a", "bc", "y"), whose (prefix1, prefix2) pairs are
distinct but whose unseparated concatenations are both "abc", it returns 1,
while the distinct-pair count the claim (and spec) state is 2. -/
theorem c9_count_distinct_nodes_bug :
    countDistinctNodes [Entry.mk "ab" "c" "x", Entry.mk "a" "bc" "y"] = 1 ∧
      countDistinctNodesAsPairs
        [Entry.mk "ab" "c" "x", Entry.mk "a" "bc" "y"] = 2 ∧
      countDistinctNodes [Entry.mk "ab" "c" "x", Entry.mk "a" "bc" "y"] ≠
        countDistinctNodesAsPairs
          [Entry.mk "ab" "c" "x", Entry.mk "a" "bc" "y"] := by
  decide
